import Mathlib

set_option maxRecDepth 200000

/-!
Verification of the mixdesk beat/phrase analysis pipeline and playback
scheduler against its natural-language specification.

The definitions below are a shallow embedding of the TypeScript/JavaScript
source.  Times are milliseconds (audio-clock values in seconds where the
source uses seconds), modelled as rationals; onset confidences are
rationals.  JavaScript `Math.round` is Lean's `round` (both are
`⌊x + 1/2⌋`), `Math.floor` is `Int.floor`, and `Math.max(...xs)` of an empty
spread is `-Infinity`, modelled with `WithBot ℚ` where that case is
reachable.  Imperative loops become folds over the corresponding index
lists; the source's cooperative-yield chunking (`await setTimeout(0)`
between chunks) does not change which iterations run, so the folds range
over the plain iteration sequence.
-/

/-- One raw onset candidate, `{ time, confidence }`, as produced by the
onset detector (`detectRawBeats` in `src/utils/beatDetection.ts`). -/
structure DetectedBeat where
  time : ℚ
  confidence : ℚ
deriving DecidableEq, Repr

/-- A phrase `{ startTime, endTime }` as emitted by `detectPhrases`. -/
structure Phrase where
  startTime : ℚ
  endTime : ℚ
deriving DecidableEq, Repr

/-- `detectedBeats.filter(beat => Math.abs(beat.time - gridTime) < 100)` —
the ±100 ms window used throughout `beatDetection.ts`. -/
def nearbyFilter (detectedBeats : List DetectedBeat) (gridTime : ℚ) : List DetectedBeat :=
  detectedBeats.filter (fun beat => |beat.time - gridTime| < 100)

/-- Confidence sum over nearby onsets weighted linearly by inverse distance
(`weight = 1 - distance/100`), as accumulated in `findOptimalGridOffset`
and in the per-beat `beatScore` of `getOffsetScore`. -/
def weightedNearbySum (detectedBeats : List DetectedBeat) (gridTime : ℚ) : ℚ :=
  ((nearbyFilter detectedBeats gridTime).map
    (fun beat => beat.confidence * (1 - |beat.time - gridTime| / 100))).sum

/-- Plain (unweighted) confidence sum over nearby onsets, as used by
`checkLargerPhrase` and by the bar energies of `detectPhrases`
(`nearbyBeats.reduce((sum, beat) => sum + beat.confidence, 0)`). -/
def plainNearbySum (detectedBeats : List DetectedBeat) (gridTime : ℚ) : ℚ :=
  ((nearbyFilter detectedBeats gridTime).map (fun beat => beat.confidence)).sum

/-- `maxConfidence` accumulator of `getOffsetScore`: starts at 0 and takes
`Math.max` with each nearby onset's confidence. -/
def beatMaxConfidence (detectedBeats : List DetectedBeat) (gridTime : ℚ) : ℚ :=
  ((nearbyFilter detectedBeats gridTime).map (fun beat => beat.confidence)).foldl max 0

/-- BPM folding, step 3 of `detectBeats`:
`if (adjustedBpm < 90) adjustedBpm *= 2; if (adjustedBpm > 180) adjustedBpm /= 2;`
(two sequential conditionals, not an else-chain). -/
def adjustBpm (bpm : ℚ) : ℚ :=
  let afterDouble := if bpm < 90 then bpm * 2 else bpm
  if 180 < afterDouble then afterDouble / 2 else afterDouble

/-- Score of one candidate grid offset in `findOptimalGridOffset`: the sum
over all `numBeats` grid points of the weighted nearby-onset confidence. -/
def gridOffsetScore (detectedBeats : List DetectedBeat) (testOffset beatInterval : ℚ)
    (numBeats : ℕ) : ℚ :=
  ((List.range numBeats).map
    (fun (beatIndex : ℕ) =>
      weightedNearbySum detectedBeats (testOffset + (beatIndex : ℚ) * beatInterval))).sum

/-- The offset-selection loop of `findOptimalGridOffset`: 20 test offsets
`beatInterval * j / 20`, keeping the first offset of maximal score
(`score > bestScore` is strict, and `bestScore` starts at `-Infinity`,
modelled by the `Option` accumulator whose `none` state loses to any
score).  The chunked outer loop (`GRID_CHUNK_SIZE = 5` with yields) visits
exactly `j = 0, …, 19` in order. -/
def gridOffsetStep (detectedBeats : List DetectedBeat) (beatInterval : ℚ)
    (numBeats : ℕ) (acc : Option ℚ × ℚ) (j : ℕ) : Option ℚ × ℚ :=
  let testOffset := beatInterval * j / 20
  let score := gridOffsetScore detectedBeats testOffset beatInterval numBeats
  match acc.1 with
  | none => (some score, testOffset)
  | some best => if best < score then (some score, testOffset) else acc

def selectGridOffset (detectedBeats : List DetectedBeat) (beatInterval : ℚ)
    (numBeats : ℕ) : ℚ :=
  ((List.range 20).foldl (gridOffsetStep detectedBeats beatInterval numBeats) (none, 0)).2

/-- `findOptimalGridOffset(detectedBeats, adjustedBpm, durationMs)`:
`beatInterval = 60000/adjustedBpm`, `numBeats = floor(durationMs/beatInterval)`,
best offset by `selectGridOffset`, then the materialised grid
`Math.round(gridOffset + i * beatInterval)` for `i < numBeats`, keeping only
entries `< durationMs`. -/
def findOptimalGridOffset (detectedBeats : List DetectedBeat) (adjustedBpm durationMs : ℚ) :
    ℚ × List ℤ :=
  let beatInterval : ℚ := 60000 / adjustedBpm
  let numBeats : ℕ := ⌊durationMs / beatInterval⌋.toNat
  let gridOffset := selectGridOffset detectedBeats beatInterval numBeats
  let beatTimes : List ℤ := ((List.range numBeats).map
      (fun (i : ℕ) => round (gridOffset + (i : ℚ) * beatInterval))).filter
      (fun beatTime => (beatTime : ℚ) < durationMs)
  (gridOffset, beatTimes)

/-- Iteration count of a loop `for (i = offset; i < len - 4; i += 4)`
evaluated in JavaScript arithmetic (`len - 4` may be negative; ℕ
subtraction truncates to the same empty loop). -/
def barLoopCount (offset len : ℕ) : ℕ :=
  ((len - 4) - offset + 3) / 4

/-- The bar-start indices visited by `for (i = offset; i < len - 4; i += 4)`
in `getOffsetScore` and (as `j`) in the bar-energy loop of `detectPhrases`
(whose `BAR_CHUNK_SIZE = 10` chunking visits the same `j` in order). -/
def barIndexList (offset len : ℕ) : List ℕ :=
  (List.range (barLoopCount offset len)).map (fun k => offset + 4 * k)

/-- `Math.max(...l)` of a nonempty list (the `[]` fallback 0 is never used:
every caller passes a 4-element list). -/
def max4 (l : List ℚ) : ℚ :=
  match l with
  | a :: rest => rest.foldl max a
  | [] => 0

/-- The accent templates `commonPatterns` of `getOffsetScore`. -/
def commonPatterns : List (List ℚ) :=
  [[1, 0.5, 0.7, 0.5], [1, 0.4, 0.8, 0.4], [1, 0.3, 0.6, 0.3]]

/-- The per-bar `barBeats` array of `getOffsetScore`: weighted-confidence
strength of the 4 beats of the bar starting at grid index `i`. -/
def barBeatsAt (beatTimes : List ℚ) (detectedBeats : List DetectedBeat) (i : ℕ) : List ℚ :=
  (List.range 4).map (fun j => weightedNearbySum detectedBeats (beatTimes.getD (i + j) 0))

/-- The per-bar `barConfidences` array of `getOffsetScore`: max nearby
confidence at each of the 4 beats of the bar starting at grid index `i`. -/
def barConfidencesAt (beatTimes : List ℚ) (detectedBeats : List DetectedBeat) (i : ℕ) : List ℚ :=
  (List.range 4).map (fun j => beatMaxConfidence detectedBeats (beatTimes.getD (i + j) 0))

/-- Pattern-matching contribution of one bar in `getOffsetScore`: normalise
the bar strengths by their max (only when the max is positive) and sum
`1 - |normalized - pattern|` over the 4 positions of each template. -/
def barPatternScore (barBeats : List ℚ) : ℚ :=
  let maxBeat := max4 barBeats
  if 0 < maxBeat then
    let normalizedBeats := barBeats.map (fun b => b / maxBeat)
    (commonPatterns.map (fun pattern =>
      ((List.range 4).map
        (fun j => 1 - |normalizedBeats.getD j 0 - pattern.getD j 0|)).sum)).sum
  else 0

/-- Accumulator of `getOffsetScore` (`score`, `totalConfidence`,
`patternScore`, `consistencyScore`). -/
structure OffsetScoreAcc where
  score : ℚ
  totalConfidence : ℚ
  patternScore : ℚ
  consistencyScore : ℚ
deriving DecidableEq, Repr

/-- One bar of the `getOffsetScore` loop body. -/
def offsetScoreStep (beatTimes : List ℚ) (detectedBeats : List DetectedBeat)
    (acc : OffsetScoreAcc) (i : ℕ) : OffsetScoreAcc :=
  let barBeats := barBeatsAt beatTimes detectedBeats i
  let barConfidences := barConfidencesAt beatTimes detectedBeats i
  let patternScore := acc.patternScore + barPatternScore barBeats
  let downbeatStrength := barBeats.getD 0 0
  let otherBeatsAvg := (barBeats.getD 1 0 + barBeats.getD 2 0 + barBeats.getD 3 0) / 3
  let score :=
    if otherBeatsAvg < downbeatStrength then acc.score + (downbeatStrength - otherBeatsAvg) * 2
    else acc.score
  let avgConfidence := (barConfidences.foldl (· + ·) 0) / 4
  let consistencyScore :=
    if avgConfidence < barConfidences.getD 0 0 then
      acc.consistencyScore + (barConfidences.getD 0 0 - avgConfidence)
    else acc.consistencyScore
  let totalConfidence := acc.totalConfidence + barConfidences.getD 0 0
  ⟨score, totalConfidence, patternScore, consistencyScore⟩

/-- `getOffsetScore(offset, beatTimes, detectedBeats)` of
`src/utils/beatDetection.ts` (lines 152–221): walk bars of 4 beats from
`offset`, accumulate the four scores, and combine them with weights
`0.4 / 0.3 / 0.2 / 0.1`. -/
def getOffsetScore (offset : ℕ) (beatTimes : List ℚ) (detectedBeats : List DetectedBeat) : ℚ :=
  let acc := (barIndexList offset beatTimes.length).foldl
    (offsetScoreStep beatTimes detectedBeats) ⟨0, 0, 0, 0⟩
  acc.score * 0.4 + acc.patternScore * 0.3 + acc.consistencyScore * 0.2 +
    acc.totalConfidence * 0.1

/-- `checkLargerPhrase` of `findBestDownbeatOffset`: plain confidence sum
at every 8th beat from `offset` while `i < beatTimes.length - 16`. -/
def checkLargerPhrase (beatTimes : List ℚ) (detectedBeats : List DetectedBeat)
    (offset : ℕ) : ℚ :=
  ((List.range (((beatTimes.length - 16) - offset + 7) / 8)).map
    (fun k => plainNearbySum detectedBeats (beatTimes.getD (offset + 8 * k) 0))).sum

/-- `findBestDownbeatOffset(beatTimes, detectedBeats)` (lines 223–266):
score the 4 phase candidates, sort descending by score (JavaScript's
stable sort with comparator `b.score - a.score`), return the top offset
when it beats the runner-up by more than a 1.2× ratio, otherwise run the
`checkLargerPhrase` tie-break fold over all 4 offsets seeded with the top
offset. -/
def findBestDownbeatOffset (beatTimes : List ℚ) (detectedBeats : List DetectedBeat) : ℕ :=
  let offsets : List ℕ := [0, 1, 2, 3]
  let offsetScores := offsets.map (fun o => (o, getOffsetScore o beatTimes detectedBeats))
  let sortedOffsets := offsetScores.mergeSort (fun a b => decide (b.2 ≤ a.2))
  let top0 := sortedOffsets.getD 0 (0, 0)
  let top1 := sortedOffsets.getD 1 (0, 0)
  if top1.2 * 1.2 < top0.2 then top0.1
  else
    offsets.foldl
      (fun best current =>
        if checkLargerPhrase beatTimes detectedBeats best <
            checkLargerPhrase beatTimes detectedBeats current then current
        else best)
      top0.1

/-- Bar energies of `detectPhrases`: for each bar start `j` (stepping by 4
from `bestOffset` while `j < beatTimes.length - 4`), the plain confidence
sum over the 4 beats of the bar. -/
def barEnergiesOf (beatTimes : List ℚ) (detectedBeats : List DetectedBeat)
    (bestOffset : ℕ) : List ℚ :=
  (barIndexList bestOffset beatTimes.length).map
    (fun j => ((List.range 4).map
      (fun k => plainNearbySum detectedBeats (beatTimes.getD (j + k) 0))).sum)

/-- `Math.max(...barEnergies) * 0.6`; `Math.max()` of an empty spread is
`-Infinity`, and `-Infinity * 0.6 = -Infinity`, modelled by `WithBot`. -/
def energyThresholdOf (barEnergies : List ℚ) : WithBot ℚ :=
  (barEnergies.foldl (fun acc e => max acc (e : WithBot ℚ)) ⊥).map (fun m => m * 0.6)

/-- Mutable state of the phrase-cutting loop of `detectPhrases`. -/
structure PhraseAcc where
  phrases : List Phrase
  phraseStartBar : ℕ
deriving DecidableEq, Repr

/-- One iteration (`bar`) of the phrase-cutting loop of `detectPhrases`:
cut when the bar-to-bar energy change exceeds the threshold or the current
phrase has reached 8 bars, but only if at least 4 bars have accumulated;
the push is guarded by `startBeat < beatTimes.length && endBeat <
beatTimes.length`, and `phraseStartBar` advances on every cut. -/
def phraseStep (beatTimes : List ℚ) (barEnergies : List ℚ) (bestOffset : ℕ)
    (energyThreshold : WithBot ℚ) (acc : PhraseAcc) (bar : ℕ) : PhraseAcc :=
  let isSignificantChange :=
    energyThreshold < ((|barEnergies.getD bar 0 - barEnergies.getD (bar - 1) 0| : ℚ) : WithBot ℚ) ∨
      8 ≤ bar - acc.phraseStartBar
  if isSignificantChange ∧ 4 ≤ bar - acc.phraseStartBar then
    let startBeat := acc.phraseStartBar * 4 + bestOffset
    let endBeat := bar * 4 + bestOffset - 1
    let phrases :=
      if startBeat < beatTimes.length ∧ endBeat < beatTimes.length then
        acc.phrases ++ [⟨beatTimes.getD startBeat 0, beatTimes.getD endBeat 0⟩]
      else acc.phrases
    ⟨phrases, bar⟩
  else acc

/-- `detectPhrases(beatTimes, detectedBeats, bestOffset)` (lines 268–333):
compute bar energies, walk bars `1 … barEnergies.length - 1` with
`phraseStep`, then emit a trailing phrase for a remaining run of at least 4
bars, its end beat clamped to `beatTimes.length - 1`. -/
def detectPhrases (beatTimes : List ℚ) (detectedBeats : List DetectedBeat)
    (bestOffset : ℕ) : List Phrase :=
  let barEnergies := barEnergiesOf beatTimes detectedBeats bestOffset
  let energyThreshold := energyThresholdOf barEnergies
  let looped := (List.range' 1 (barEnergies.length - 1)).foldl
    (phraseStep beatTimes barEnergies bestOffset energyThreshold) ⟨[], 0⟩
  let remainingBars := barEnergies.length - looped.phraseStartBar
  if 4 ≤ remainingBars then
    let startBeat := looped.phraseStartBar * 4 + bestOffset
    let endBeat :=
      min (beatTimes.length - 1) ((looped.phraseStartBar + remainingBars) * 4 + bestOffset - 1)
    looped.phrases ++ [⟨beatTimes.getD startBeat 0, beatTimes.getD endBeat 0⟩]
  else looped.phrases

/-! ## Metronome service (`src/Metronome.ts`) -/

/-- Mutable fields of the `Metronome` class that its tempo and timing
queries read: `currentTempo`, `lastTickTime` (0 until the first worklet
tick arrives, then the audio-clock time of the latest tick), and
`currentBeatCount`. -/
structure MetronomeState where
  currentTempo : ℚ
  lastTickTime : ℚ
  currentBeatCount : ℕ
deriving DecidableEq, Repr

/-- The validation failure thrown by `Metronome.setTempo`
(`throw new Error('Tempo must be between 20 and 300 BPM')`). -/
inductive TempoError where
  | outOfRange
deriving DecidableEq, Repr

/-- `Metronome.setTempo(newTempo)` (lines 108–114): throw when
`newTempo < 20 || newTempo > 300`, otherwise store the new tempo. -/
def setTempo (st : MetronomeState) (newTempo : ℚ) : Except TempoError MetronomeState :=
  if newTempo < 20 ∨ 300 < newTempo then Except.error TempoError.outOfRange
  else Except.ok { st with currentTempo := newTempo }

/-- The metronome state observed after a `setTempo` call: unchanged when
the call threw (the throw happens before any assignment), the returned
state otherwise. -/
def setTempoApplied (st : MetronomeState) (newTempo : ℚ) : MetronomeState :=
  match setTempo st newTempo with
  | Except.error _ => st
  | Except.ok st2 => st2

/-- JavaScript truncation toward zero, as used by the `%` operator. -/
def jsTrunc (q : ℚ) : ℤ :=
  if 0 ≤ q then ⌊q⌋ else ⌈q⌉

/-- JavaScript's remainder operator `a % b` (for `b ≠ 0`):
`a - b * trunc(a / b)`, carrying the sign of the dividend. -/
def jsMod (a b : ℚ) : ℚ :=
  a - b * jsTrunc (a / b)

/-- `Metronome.getTimeUntilNextBeat()` (lines 120–131): `null` while
`lastTickTime === 0`, otherwise
`beatInterval - ((currentTime - lastTickTime) % beatInterval)` with
`beatInterval = 60 / currentTempo`. -/
def getTimeUntilNextBeat (st : MetronomeState) (currentTime : ℚ) : Option ℚ :=
  if st.lastTickTime = 0 then none
  else
    let beatInterval := 60 / st.currentTempo
    let timeSinceLastTick := currentTime - st.lastTickTime
    some (beatInterval - jsMod timeSinceLastTick beatInterval)

/-! ## Beat scheduler of `useAudioPlayer` (`src/hooks/useAudioPlayer.ts`,
`scheduleBeats`, lines 112–144) -/

/-- The refs read and written by one `scheduleBeats` pass:
`nextBeatTimeRef` and `beatCountRef`. -/
structure SchedState where
  nextBeatTime : ℚ
  beatCount : ℕ
deriving DecidableEq, Repr

/-- The `CustomEvent` detail dispatched on `METRONOME_BEAT_EVENT`:
`{ beatNumber, time, isDownbeat: beatNumber === 1 }`. -/
structure BeatEvent where
  beatNumber : ℕ
  time : ℚ
  isDownbeat : Bool
deriving DecidableEq, Repr

/-- One `scheduleBeats` pass (the body runs every 25 ms): when
`nextBeatTime < currentTime + 0.1` it dispatches a beat event carrying the
committed `nextBeatTime`, wraps the counter modulo 4
(`beatCountRef.current = (beatCountRef.current + 1) % 4`), and commits the
following beat at `currentTime + 60 / tempo` using the tempo current at
dispatch time. -/
def scheduleBeatsPass (tempo currentTime : ℚ) (st : SchedState) :
    SchedState × Option BeatEvent :=
  if st.nextBeatTime < currentTime + 0.1 then
    let beatNumber := st.beatCount + 1
    let ev : BeatEvent := ⟨beatNumber, st.nextBeatTime, beatNumber == 1⟩
    let secondsPerBeat : ℚ := 60 / tempo
    (⟨currentTime + secondsPerBeat, (st.beatCount + 1) % 4⟩, some ev)
  else (st, none)

/-- Accumulation of one pass into a run of `scheduleBeats` passes. -/
def scheduleRunStep (acc : SchedState × List BeatEvent) (input : ℚ × ℚ) :
    SchedState × List BeatEvent :=
  let next := scheduleBeatsPass input.1 input.2 acc.1
  match next.2 with
  | some ev => (next.1, acc.2 ++ [ev])
  | none => (next.1, acc.2)

/-- A run of `scheduleBeats` passes; each input is the pair
`(currentTempoRef, audioContext.currentTime)` observed by that pass.
Returns the dispatched beat events in order. -/
def runSchedule (inputs : List (ℚ × ℚ)) (st : SchedState) : SchedState × List BeatEvent :=
  inputs.foldl scheduleRunStep (st, [])

/-! ## AudioWorklet metronome (`public/metronome-processor.js`) -/

/-- Mutable fields of `MetronomeProcessor`: the sample countdown
`nextTickSamples` and the tick counter `beatCount`. -/
structure ProcState where
  nextTickSamples : ℚ
  beatCount : ℕ
deriving DecidableEq, Repr

/-- One sample of `MetronomeProcessor.process` (lines 39–52): decrement
the countdown; on reaching `<= 0`, post a tick message carrying the
current `beatCount`, increment the counter, and add
`sampleRate * (60 / currentTempo)` to the countdown (compensating
overrun). -/
def processSample (sampleRate currentTempo : ℚ) (st : ProcState) : ProcState × Option ℕ :=
  let counted := st.nextTickSamples - 1
  if counted ≤ 0 then
    (⟨counted + sampleRate * (60 / currentTempo), st.beatCount + 1⟩, some st.beatCount)
  else (⟨counted, st.beatCount⟩, none)

/-- One sample step of a `process` block: per sample `i`, the tempo is
`tempoValues[i]` when the parameter array has more than one entry,
otherwise `tempoValues[0]`; a fired tick appends its beat count. -/
def processStep (sampleRate : ℚ) (tempoValues : List ℚ) (acc : ProcState × List ℕ)
    (i : ℕ) : ProcState × List ℕ :=
  let currentTempo :=
    if 1 < tempoValues.length then tempoValues.getD i 0 else tempoValues.getD 0 0
  let next := processSample sampleRate currentTempo acc.1
  match next.2 with
  | some c => (next.1, acc.2 ++ [c])
  | none => (next.1, acc.2)

/-- One `process` call over a block of `blockSize` samples.  Returns the
posted tick beat counts in order. -/
def processBlock (sampleRate : ℚ) (tempoValues : List ℚ) (blockSize : ℕ)
    (st : ProcState) : ProcState × List ℕ :=
  (List.range blockSize).foldl (processStep sampleRate tempoValues) (st, [])

/-- Accumulation of one `process` call into a run. -/
def runProcessStep (sampleRate : ℚ) (acc : ProcState × List ℕ)
    (block : List ℚ × ℕ) : ProcState × List ℕ :=
  let next := processBlock sampleRate block.1 block.2 acc.1
  (next.1, acc.2 ++ next.2)

/-- A run of `process` calls; each input is the tempo parameter array and
block size of that call.  Returns all posted tick beat counts in order. -/
def runProcess (sampleRate : ℚ) (blocks : List (List ℚ × ℕ)) (st : ProcState) :
    ProcState × List ℕ :=
  blocks.foldl (runProcessStep sampleRate) (st, [])

/-! ## Playback Synchronizer drift correction (modelled from the spec)

The hook dispatches metronome beat events and `handlePlayPause`
(`useAudioPlayer.ts` lines 274–330) sets only the base playback rate
`globalTempo / track.originalTempo`; no per-beat drift-correction code is
present under `src/`.  The definitions below model that missing
computation from the specification. -/

/-- Modelled from the spec: `expectedPosition = startOffsetInTrack +
(beatEventTime − startClockTime)` (spec §4.7); the position the track
should have reached at a beat event. -/
def expectedPosition (startOffsetInTrack beatEventTime startClockTime : ℚ) : ℚ :=
  startOffsetInTrack + (beatEventTime - startClockTime)

/-- Modelled from the spec: `syncError = expectedPosition − actualPosition`
(spec §4.7). -/
def syncError (expected actualPosition : ℚ) : ℚ :=
  expected - actualPosition

/-- Modelled from the spec: the error-magnitude-dependent correction
strength ("larger errors correct faster, capped" — spec §4.7), a capped
linear gain in the error magnitude. -/
def correctionStrength (err : ℚ) : ℚ :=
  min 1 (|err| * 2)

/-- Modelled from the spec: the bounded correction factor "proportional to
`syncError / timeToNextBeat`, scaled by an error-magnitude-dependent
strength term" (spec §4.7), clamped to ±10 % around 1. -/
def correctionFactor (err timeToNextBeat : ℚ) : ℚ :=
  max 0.9 (min 1.1 (1 + (err / timeToNextBeat) * correctionStrength err))

/-- Modelled from the spec: exponential smoothing — "blend 30% of the new
correction into the previous rate" (spec §4.7) — and the applied rate
`rate × correctionFactor`. -/
def correctedRate (baseRate previousCorrection newCorrection : ℚ) : ℚ :=
  baseRate * (previousCorrection * 0.7 + newCorrection * 0.3)

/-! ## Concrete test vectors -/

/-- A 64-beat grid with uniform 500 ms spacing (120 bpm). -/
def grid64 : List ℚ := (List.range 64).map (fun (i : ℕ) => (i : ℚ) * 500)

/-- One onset of confidence 1.0 exactly at every beat of `grid64`
(uniform per-bar energy). -/
def ons64 : List DetectedBeat := (List.range 64).map (fun (i : ℕ) => ⟨(i : ℚ) * 500, 1⟩)

/-- A uniform grid of `len` beats spaced `d` ms apart. -/
def uniformGrid (d : ℚ) (len : ℕ) : List ℚ :=
  (List.range len).map (fun (i : ℕ) => (i : ℚ) * d)

/-- Onsets of confidence 1.0 exactly at the grid entries of indices
0, 4, 8, … of `uniformGrid d len`, and nowhere else. -/
def fourPeriodicOnsets (d : ℚ) (len : ℕ) : List DetectedBeat :=
  ((List.range len).filter (fun i => i % 4 == 0)).map (fun (i : ℕ) => ⟨(i : ℚ) * d, 1⟩)

/-! ## Specification predicates -/

/-- A phrase whose boundaries are the grid entries of a whole-bar span of
`n` bars, `4 ≤ n ≤ 8`, starting at bar `s` of the bar grid anchored at
`offset`: its start is beat `s*4 + offset` and its end the last beat of
bar `s + n - 1`, all within the grid. -/
def SpanOK (beatTimes : List ℚ) (offset : ℕ) (p : Phrase) : Prop :=
  ∃ s n, 4 ≤ n ∧ n ≤ 8 ∧ (s + n) * 4 + offset ≤ beatTimes.length ∧
    p.startTime = beatTimes.getD (s * 4 + offset) 0 ∧
    p.endTime = beatTimes.getD ((s + n) * 4 + offset - 1) 0

/-- Invariant of the phrase-cutting loop of `detectPhrases`, holding just
before bar `bar` is processed: the running phrase started strictly before
`bar` and at most 8 bars ago, every emitted phrase is a whole-bar span of
4–8 bars, every emitted phrase ends strictly before the running phrase's
first beat, and the emitted phrases are ordered and non-overlapping. -/
def PhraseInv (beatTimes : List ℚ) (offset bar : ℕ) (acc : PhraseAcc) : Prop :=
  acc.phraseStartBar < bar ∧
  bar - acc.phraseStartBar ≤ 8 ∧
  (∀ p ∈ acc.phrases, SpanOK beatTimes offset p) ∧
  (∀ p ∈ acc.phrases, ∃ e, e < acc.phraseStartBar * 4 + offset ∧
    e < beatTimes.length ∧ p.endTime = beatTimes.getD e 0) ∧
  acc.phrases.Pairwise (fun p q => p.endTime < q.startTime)

/-! # Theorems -/

/-! ## C9 — tempo validation -/

/-- C9: `Metronome.setTempo(newTempo)` raises a validation error if and
only if `newTempo` is outside the supported range [20, 300] BPM; on error
the stored tempo is left unchanged (no clamping is silently applied), and
on success the stored tempo becomes exactly `newTempo`. -/
theorem setTempo_range_validation (st : MetronomeState) (newTempo : ℚ) :
    ((∃ e, setTempo st newTempo = Except.error e) ↔ newTempo < 20 ∨ 300 < newTempo) ∧
    (newTempo < 20 ∨ 300 < newTempo → setTempoApplied st newTempo = st) ∧
    (20 ≤ newTempo → newTempo ≤ 300 →
      setTempo st newTempo = Except.ok { st with currentTempo := newTempo }) := by
  refine ⟨?_, ?_, ?_⟩
  · unfold setTempo
    split_ifs with h
    · exact iff_of_true ⟨TempoError.outOfRange, rfl⟩ h
    · constructor
      · rintro ⟨e, he⟩
        simp at he
      · intro hc
        exact absurd hc h
  · intro hc
    unfold setTempoApplied setTempo
    rw [if_pos hc]
  · intro h1 h2
    unfold setTempo
    split_ifs with h
    · rcases h with h | h <;> linarith
    · rfl

/-- Witness for C9 at concrete inputs: tempo 400 is rejected leaving the
state unchanged, and tempo 150 is stored exactly. -/
theorem setTempo_range_validation_witness :
    setTempoApplied ⟨120, 0, 0⟩ 400 = ⟨120, 0, 0⟩ ∧
    setTempo ⟨120, 0, 0⟩ 150 = Except.ok ⟨150, 0, 0⟩ :=
  ⟨(setTempo_range_validation ⟨120, 0, 0⟩ 400).2.1 (by norm_num),
   (setTempo_range_validation ⟨120, 0, 0⟩ 150).2.2 (by norm_num) (by norm_num)⟩

/-! ## C10 — time until next beat -/

/-- C10: `Metronome.getTimeUntilNextBeat()` returns `null` if and only if
no tick has been received yet (`lastTickTime` still 0); otherwise, with the
audio clock monotone (`currentTime ≥ lastTickTime`) and a positive tempo,
it returns a value strictly greater than 0 and at most `60 / tempo`
seconds. -/
theorem timeUntilNextBeat_spec (st : MetronomeState) (currentTime : ℚ) :
    (getTimeUntilNextBeat st currentTime = none ↔ st.lastTickTime = 0) ∧
    (st.lastTickTime ≠ 0 → 0 < st.currentTempo → st.lastTickTime ≤ currentTime →
      ∃ v, getTimeUntilNextBeat st currentTime = some v ∧ 0 < v ∧
        v ≤ 60 / st.currentTempo) := by
  constructor
  · unfold getTimeUntilNextBeat
    split_ifs with h <;> simp [h]
  · intro h0 htempo hclock
    have hbpos : 0 < 60 / st.currentTempo := by positivity
    set b : ℚ := 60 / st.currentTempo with hb
    set a : ℚ := currentTime - st.lastTickTime with ha
    have hapos : 0 ≤ a := by simp [ha]; linarith
    have htr : jsTrunc (a / b) = ⌊a / b⌋ := by
      unfold jsTrunc
      rw [if_pos (div_nonneg hapos hbpos.le)]
    have hfl : b * (⌊a / b⌋ : ℚ) ≤ a := by
      have h1 := Int.floor_le (a / b)
      have h2 : b * (⌊a / b⌋ : ℚ) ≤ b * (a / b) := by
        exact mul_le_mul_of_nonneg_left h1 hbpos.le
      have h3 : b * (a / b) = a := by
        field_simp
      linarith
    have hfl2 : a < b * ((⌊a / b⌋ : ℚ) + 1) := by
      have h1 := Int.lt_floor_add_one (a / b)
      have h2 : b * (a / b) < b * ((⌊a / b⌋ : ℚ) + 1) := by
        exact (mul_lt_mul_left hbpos).2 h1
      have h3 : b * (a / b) = a := by
        field_simp
      linarith
    have hmod : jsMod a b = a - b * (⌊a / b⌋ : ℚ) := by
      unfold jsMod
      rw [htr]
    refine ⟨b - jsMod a b, ?_, ?_, ?_⟩
    · unfold getTimeUntilNextBeat
      rw [if_neg h0]
    · rw [hmod]; linarith
    · rw [hmod]; linarith

/-- Witness for C10 at concrete inputs (last tick at 1 s, clock at 2 s,
tempo 120): some positive value at most 0.5 s is returned. -/
theorem timeUntilNextBeat_spec_witness :
    (⟨120, 1, 0⟩ : MetronomeState).lastTickTime ≠ 0 ∧
    ∃ v, getTimeUntilNextBeat ⟨120, 1, 0⟩ 2 = some v ∧ 0 < v ∧
      v ≤ 60 / (⟨120, 1, 0⟩ : MetronomeState).currentTempo :=
  ⟨by norm_num,
   (timeUntilNextBeat_spec ⟨120, 1, 0⟩ 2).2 (by norm_num) (by norm_num) (by norm_num)⟩

/-! ## C8 — tempo change and committed beats -/

/-- C8: a metronome tempo change affects only beats scheduled after it.
In a `scheduleBeats` pass the dispatched event (if any) is identical
whatever the tempo — it fires at the previously committed `nextBeatTime` —
and only the beat committed by the pass uses the new `60 / tempo`
interval. -/
theorem tempo_change_preserves_committed_beat (st : SchedState)
    (currentTime tempoOld tempoNew : ℚ) :
    (scheduleBeatsPass tempoNew currentTime st).2 =
      (scheduleBeatsPass tempoOld currentTime st).2 ∧
    ∀ ev, (scheduleBeatsPass tempoNew currentTime st).2 = some ev →
      ev.time = st.nextBeatTime ∧
      (scheduleBeatsPass tempoNew currentTime st).1.nextBeatTime =
        currentTime + 60 / tempoNew := by
  unfold scheduleBeatsPass
  split_ifs with h
  · refine ⟨rfl, ?_⟩
    intro ev hev
    cases hev
    exact ⟨rfl, rfl⟩
  · refine ⟨rfl, ?_⟩
    intro ev hev
    cases hev

unseal Rat.add Rat.sub Rat.mul Rat.inv Rat.ofScientific in
/-- Witness for C8 at concrete inputs: with a pending beat committed at
time 0, passes at tempo 120 and 140 dispatch the same event at its
committed time, and the next beat is committed with the new interval. -/
theorem tempo_change_preserves_committed_beat_witness :
    (scheduleBeatsPass 140 0 ⟨0, 0⟩).2 = (scheduleBeatsPass 120 0 ⟨0, 0⟩).2 ∧
    (⟨1, 0, true⟩ : BeatEvent).time = (⟨0, 0⟩ : SchedState).nextBeatTime ∧
    (scheduleBeatsPass 140 0 ⟨0, 0⟩).1.nextBeatTime = 0 + 60 / 140 :=
  ⟨(tempo_change_preserves_committed_beat ⟨0, 0⟩ 0 120 140).1,
   (tempo_change_preserves_committed_beat ⟨0, 0⟩ 0 120 140).2 ⟨1, 0, true⟩ (by decide)⟩

/-! ## C3 — zero sync error (spec-modelled synchronizer) -/

/-- C3 (spec-modelled): on each metronome beat the Playback Synchronizer
derives a correction factor from `syncError = expectedPosition −
actualPosition`; whenever the actual position equals the expected position
(zero sync error) the correction factor resolves to 1.0, so the applied
playback rate is unchanged. -/
theorem zeroSyncError_correction_factor_one
    (startOffsetInTrack beatEventTime startClockTime actualPosition : ℚ)
    (timeToNextBeat baseRate : ℚ)
    (h : actualPosition = expectedPosition startOffsetInTrack beatEventTime startClockTime) :
    syncError (expectedPosition startOffsetInTrack beatEventTime startClockTime)
        actualPosition = 0 ∧
    correctionFactor
      (syncError (expectedPosition startOffsetInTrack beatEventTime startClockTime)
        actualPosition) timeToNextBeat = 1 ∧
    correctedRate baseRate 1
      (correctionFactor
        (syncError (expectedPosition startOffsetInTrack beatEventTime startClockTime)
          actualPosition) timeToNextBeat) = baseRate := by
  have h0 : syncError (expectedPosition startOffsetInTrack beatEventTime startClockTime)
      actualPosition = 0 := by
    unfold syncError
    rw [h]
    ring
  have h1 : correctionFactor 0 timeToNextBeat = 1 := by
    unfold correctionFactor correctionStrength
    norm_num
  refine ⟨h0, ?_, ?_⟩
  · rw [h0, h1]
  · rw [h0, h1]
    unfold correctedRate
    ring

unseal Rat.add Rat.sub Rat.mul Rat.inv in
/-- Witness for C3 at concrete inputs: a track started at offset 10 with
clock start 2, observed exactly at the expected position 13 on a beat at
time 5, keeps correction factor 1 and base rate 2. -/
theorem zeroSyncError_correction_factor_one_witness :
    syncError (expectedPosition 10 5 2) 13 = 0 ∧
    correctionFactor (syncError (expectedPosition 10 5 2) 13) (1 / 2) = 1 ∧
    correctedRate 2 1 (correctionFactor (syncError (expectedPosition 10 5 2) 13) (1 / 2)) = 2 :=
  zeroSyncError_correction_factor_one 10 5 2 13 (1 / 2) 2 (by decide)

/-! ## C5 — beat counters -/

/-- One `processStep` either emits nothing and keeps the counter, or emits
the current counter value and increments it. -/
lemma processStep_cases (sr : ℚ) (tv : List ℚ) (st : ProcState) (out : List ℕ) (i : ℕ) :
    ((processStep sr tv (st, out) i).2 = out ∧
      (processStep sr tv (st, out) i).1.beatCount = st.beatCount) ∨
    ((processStep sr tv (st, out) i).2 = out ++ [st.beatCount] ∧
      (processStep sr tv (st, out) i).1.beatCount = st.beatCount + 1) := by
  unfold processStep processSample
  dsimp only
  by_cases h : st.nextTickSamples - 1 ≤ 0
  · rw [if_pos h]
    right
    exact ⟨rfl, rfl⟩
  · rw [if_neg h]
    left
    exact ⟨rfl, rfl⟩

/-- Folding `processStep` over any sample list appends a consecutive run
of beat counts starting at the incoming counter. -/
lemma processFold_spec (sr : ℚ) (tv : List ℚ) (l : List ℕ) :
    ∀ (st : ProcState) (out : List ℕ),
      ∃ k, (l.foldl (processStep sr tv) (st, out)).2 =
          out ++ List.range' st.beatCount k ∧
        (l.foldl (processStep sr tv) (st, out)).1.beatCount = st.beatCount + k := by
  induction l with
  | nil =>
    intro st out
    exact ⟨0, by simp, by simp⟩
  | cons i l ih =>
    intro st out
    rw [List.foldl_cons]
    obtain ⟨k, hk1, hk2⟩ :=
      ih (processStep sr tv (st, out) i).1 (processStep sr tv (st, out) i).2
    rw [Prod.mk.eta] at hk1 hk2
    rcases processStep_cases sr tv st out i with ⟨h1, h2⟩ | ⟨h1, h2⟩
    · refine ⟨k, ?_, ?_⟩
      · rw [hk1, h1, h2]
      · rw [hk2, h2]
    · refine ⟨k + 1, ?_, ?_⟩
      · rw [hk1, h1, h2, List.append_assoc]
        congr 1
      · rw [hk2, h2]
        omega

/-- One `process` block emits the consecutive counts
`st.beatCount, st.beatCount + 1, …` and advances the counter by the number
of ticks emitted. -/
lemma processBlock_spec (sr : ℚ) (tv : List ℚ) (n : ℕ) (st : ProcState) :
    ∃ k, (processBlock sr tv n st).2 = List.range' st.beatCount k ∧
      (processBlock sr tv n st).1.beatCount = st.beatCount + k := by
  obtain ⟨k, h1, h2⟩ := processFold_spec sr tv (List.range n) st []
  exact ⟨k, by simpa using h1, h2⟩

/-- A run of `process` calls emits a single consecutive run of counts. -/
lemma runProcessFold_spec (sr : ℚ) (blocks : List (List ℚ × ℕ)) :
    ∀ (st : ProcState) (out : List ℕ),
      ∃ k, (blocks.foldl (runProcessStep sr) (st, out)).2 =
          out ++ List.range' st.beatCount k ∧
        (blocks.foldl (runProcessStep sr) (st, out)).1.beatCount = st.beatCount + k := by
  induction blocks with
  | nil =>
    intro st out
    exact ⟨0, by simp, by simp⟩
  | cons b bs ih =>
    intro st out
    rw [List.foldl_cons]
    obtain ⟨k1, hb1, hb2⟩ := processBlock_spec sr b.1 b.2 st
    have hstep : runProcessStep sr (st, out) b =
        ((processBlock sr b.1 b.2 st).1, out ++ (processBlock sr b.1 b.2 st).2) := rfl
    rw [hstep]
    obtain ⟨k2, h1, h2⟩ :=
      ih (processBlock sr b.1 b.2 st).1 (out ++ (processBlock sr b.1 b.2 st).2)
    refine ⟨k2 + k1, ?_, ?_⟩
    · rw [h1, hb1, hb2, List.append_assoc]
      congr 1
      have h := List.range'_append st.beatCount k1 k2 1
      simp only [one_mul] at h
      exact h
    · rw [h2, hb2]
      omega

/-- C5 (amended): in the AudioWorklet metronome processor
(`public/metronome-processor.js`), the tick messages posted across any run
of `process` calls carry beat counts that increase by exactly 1 from tick
to tick (they form the consecutive range starting at the initial counter),
and the processor's beat counter never decreases — it ends at the initial
value plus the number of ticks posted.  (In `useAudioPlayer`'s
`scheduleBeats` the dispatched beat numbers instead wrap modulo 4; see the
counterexample.) -/
theorem processor_tick_counts_consecutive (sampleRate : ℚ)
    (blocks : List (List ℚ × ℕ)) (st : ProcState) :
    (runProcess sampleRate blocks st).2 =
      List.range' st.beatCount (runProcess sampleRate blocks st).2.length ∧
    (runProcess sampleRate blocks st).1.beatCount =
      st.beatCount + (runProcess sampleRate blocks st).2.length := by
  obtain ⟨k, h1, h2⟩ := runProcessFold_spec sampleRate blocks st []
  have hrun1 : (runProcess sampleRate blocks st).2 = List.range' st.beatCount k := by
    unfold runProcess
    simpa using h1
  have hlen : (runProcess sampleRate blocks st).2.length = k := by
    rw [hrun1, List.length_range']
  constructor
  · rw [hlen, hrun1]
  · rw [hlen]
    unfold runProcess
    exact h2

unseal Rat.add Rat.sub Rat.mul Rat.inv Rat.ofScientific in
/-- C5 counterexample: in `useAudioPlayer`'s `scheduleBeats` the beat
numbers carried by successive beat events do not strictly increase across
a run — with tempo 120 and passes observed at clock times 0 … 4 s the
dispatched beat numbers are 1, 2, 3, 4, 1 (the counter wraps modulo 4),
and the beat counter itself decreases from 3 back to 0. -/
theorem scheduler_beat_numbers_wrap :
    ((runSchedule [(120, 0), (120, 1), (120, 2), (120, 3), (120, 4)]
        ⟨0, 0⟩).2.map BeatEvent.beatNumber) = [1, 2, 3, 4, 1] ∧
    ¬ List.Chain' (fun a b => b = a + 1) ([1, 2, 3, 4, 1] : List ℕ) ∧
    (runSchedule [(120, 0), (120, 1), (120, 2)] ⟨0, 0⟩).1.beatCount = 3 ∧
    (runSchedule [(120, 0), (120, 1), (120, 2), (120, 3)] ⟨0, 0⟩).1.beatCount = 0 := by
  refine ⟨by decide, ?_, by decide, by decide⟩
  norm_num [List.chain'_cons]

/-! ## C4 — 64-beat uniform click track -/

unseal Rat.add Rat.sub Rat.mul Rat.inv Rat.ofScientific in
/-- C4 counterexample: on a 64-beat grid (500 ms spacing, downbeat offset
0) with an onset of confidence 1.0 at every beat, the Phrase Segmenter
does not return two 8-bar (32-beat) phrases — the second emitted phrase
ends at beat 59 (time 29500 ms), not at beat 63 (time 31500 ms). -/
theorem phrases64_not_two_eight_bar_phrases :
    detectPhrases grid64 ons64 0 ≠ [⟨0, 15500⟩, ⟨16000, 31500⟩] := by
  decide

unseal Rat.add Rat.sub Rat.mul Rat.inv Rat.ofScientific in
/-- C4 (amended): on a 64-beat grid (500 ms spacing, downbeat offset 0)
with an onset of confidence 1.0 at every beat, the Phrase Segmenter emits
exactly 2 phrases: the first of 8 bars (beats 0–31, cut by the 8-bar cap —
the uniform energies never exceed the 0.6·max threshold), the second of 7
bars (beats 32–59): the bar-energy loop bound `j < beatTimes.length - 4`
drops the final bar, so the trailing phrase covers only 7 bars. -/
theorem phrases64_two_phrases_eight_and_seven_bars :
    detectPhrases grid64 ons64 0 = [⟨0, 15500⟩, ⟨16000, 29500⟩] := by
  decide

/-! ## C1 / C2 counterexamples -/

unseal Rat.add Rat.sub Rat.mul Rat.inv Rat.ofScientific in
/-- C1 counterexample: for the canonical bpm 240000 (the folding of raw
bpm 480000) and duration 2 ms, the beat interval is 0.25 ms and the
returned BeatGrid `[0, 0, 1, 1, 1, 1]` is not strictly increasing, and its
length 6 differs from `floor(durationMs / beatInterval) = 8` by more than
one. -/
theorem gridFitter_submillisecond_counterexample :
    adjustBpm 480000 = 240000 ∧
    (findOptimalGridOffset [] 240000 2).2 = [0, 0, 1, 1, 1, 1] ∧
    ¬ ((findOptimalGridOffset [] 240000 2).2.Pairwise (· < ·)) ∧
    (⌊(2 : ℚ) / (60000 / 240000)⌋.toNat : ℕ) = 8 ∧
    (findOptimalGridOffset [] 240000 2).2.length = 6 := by
  decide

unseal Rat.add Rat.sub Rat.mul Rat.inv Rat.ofScientific in
/-- C2 counterexample: with an empty onset list the Grid Fitter does not
return an empty BeatGrid — at 120 bpm over 2000 ms it returns the full
regular grid `[0, 500, 1000, 1500]`. -/
theorem emptyOnsets_grid_not_empty :
    (findOptimalGridOffset [] 120 2000).2 = [0, 500, 1000, 1500] ∧
    (findOptimalGridOffset [] 120 2000).2 ≠ [] := by
  decide

/-! ## C2 — degenerate analysis inputs -/

/-- With no onsets, every candidate grid offset scores 0. -/
lemma gridOffsetScore_nil (testOffset beatInterval : ℚ) (numBeats : ℕ) :
    gridOffsetScore [] testOffset beatInterval numBeats = 0 := by
  unfold gridOffsetScore weightedNearbySum nearbyFilter
  simp

/-- With no onsets, the selection step never moves off the offset chosen at
`j = 0` (a score of 0 never strictly beats the stored best of 0). -/
lemma gridOffsetStep_nil (beatInterval : ℚ) (numBeats : ℕ) (j : ℕ) :
    gridOffsetStep [] beatInterval numBeats (some 0, 0) j = (some 0, 0) := by
  unfold gridOffsetStep
  dsimp only
  rw [gridOffsetScore_nil]
  rw [if_neg (lt_irrefl 0)]

/-- With no onsets the whole selection fold is stuck at `(some 0, 0)`. -/
lemma gridOffsetFold_nil (beatInterval : ℚ) (numBeats : ℕ) (l : List ℕ) :
    l.foldl (gridOffsetStep [] beatInterval numBeats) (some 0, 0) = (some 0, 0) := by
  induction l with
  | nil => rfl
  | cons j l ih =>
    rw [List.foldl_cons, gridOffsetStep_nil, ih]

/-- With no onsets the Grid Fitter selects offset 0. -/
lemma selectGridOffset_nil (beatInterval : ℚ) (numBeats : ℕ) :
    selectGridOffset [] beatInterval numBeats = 0 := by
  unfold selectGridOffset
  rw [List.range_eq_range', show (20 : ℕ) = 19 + 1 from rfl, List.range'_succ,
    List.foldl_cons]
  have h0 : gridOffsetStep [] beatInterval numBeats (none, 0) 0 =
      (some 0, 0) := by
    unfold gridOffsetStep
    dsimp only
    rw [gridOffsetScore_nil]
    norm_num
  rw [h0, gridOffsetFold_nil]

/-- C2 (amended): with an empty detected-onset list the Grid Fitter does
not fail: it selects grid offset 0 and its BeatGrid is empty precisely in
the degenerate case where the duration is shorter than one beat interval
(otherwise it is the full regular grid — see the counterexample); and the
Phrase Segmenter on the degenerate empty BeatGrid returns the empty phrase
list for any onset input, without failing. -/
theorem gridFitter_segmenter_degenerate (adjustedBpm durationMs : ℚ)
    (hb : 0 < adjustedBpm) (hd : 0 < durationMs) :
    (findOptimalGridOffset [] adjustedBpm durationMs).1 = 0 ∧
    (durationMs < 60000 / adjustedBpm →
      (findOptimalGridOffset [] adjustedBpm durationMs).2 = []) ∧
    (∀ (detectedBeats : List DetectedBeat) (bestOffset : ℕ),
      detectPhrases [] detectedBeats bestOffset = []) := by
  refine ⟨?_, ?_, ?_⟩
  · unfold findOptimalGridOffset
    dsimp only
    exact selectGridOffset_nil _ _
  · intro hlt
    unfold findOptimalGridOffset
    dsimp only
    have hI : 0 < 60000 / adjustedBpm := by positivity
    have h0 : ⌊durationMs / (60000 / adjustedBpm)⌋ = 0 := by
      rw [Int.floor_eq_zero_iff]
      constructor
      · exact div_nonneg hd.le hI.le
      · exact (div_lt_one hI).2 hlt
    rw [h0]
    simp
  · intro detectedBeats bestOffset
    unfold detectPhrases barEnergiesOf barIndexList barLoopCount
    simp

/-- Witness for C2 at concrete inputs: 120 bpm over a 300 ms duration
(shorter than the 500 ms beat interval) yields offset 0, an empty grid,
and an empty phrase list. -/
theorem gridFitter_segmenter_degenerate_witness :
    (findOptimalGridOffset [] 120 300).1 = 0 ∧
    ((300 : ℚ) < 60000 / 120 → (findOptimalGridOffset [] 120 300).2 = []) ∧
    (∀ (detectedBeats : List DetectedBeat) (bestOffset : ℕ),
      detectPhrases [] detectedBeats bestOffset = []) :=
  gridFitter_segmenter_degenerate 120 300 (by norm_num) (by norm_num)

/-! ## C1 — BeatGrid shape -/

/-- `round` is monotone on ℚ. -/
lemma round_rat_mono {x y : ℚ} (h : x ≤ y) : round x ≤ round y := by
  rw [round_eq, round_eq]
  exact Int.floor_le_floor (by linarith)

/-- The selected grid offset always lies in `[0, beatInterval)`: every
tested offset is `beatInterval * j / 20` with `j ≤ 19`. -/
lemma selectGridOffset_bounds (detectedBeats : List DetectedBeat)
    (beatInterval : ℚ) (numBeats : ℕ) (hI : 0 < beatInterval) :
    0 ≤ selectGridOffset detectedBeats beatInterval numBeats ∧
    selectGridOffset detectedBeats beatInterval numBeats < beatInterval := by
  unfold selectGridOffset
  have h := List.foldlRecOn
    (motive := fun acc : Option ℚ × ℚ => 0 ≤ acc.2 ∧ acc.2 < beatInterval)
    (List.range 20) (gridOffsetStep detectedBeats beatInterval numBeats)
    ((none, 0) : Option ℚ × ℚ) ⟨le_refl 0, hI⟩ ?step
  · exact h
  case step =>
    intro acc hacc j hj
    have hj20 : (j : ℚ) < 20 := by
      have := List.mem_range.1 hj
      exact_mod_cast this
    have hoffj : 0 ≤ beatInterval * (j : ℚ) / 20 ∧
        beatInterval * (j : ℚ) / 20 < beatInterval := by
      constructor
      · positivity
      · rw [div_lt_iff (by norm_num : (0 : ℚ) < 20)]
        have hcj : (0 : ℚ) ≤ (j : ℚ) := by positivity
        nlinarith
    unfold gridOffsetStep
    dsimp only
    cases hfst : acc.1 with
    | none =>
      dsimp only
      exact hoffj
    | some best =>
      dsimp only
      split_ifs with hlt
      · exact hoffj
      · exact hacc

/-- C1 (amended): for every onset list, positive duration, and canonical
bpm whose beat interval `60000 / bpm` is at least 1 ms (bpm ≤ 60000 — a
sub-millisecond beat interval makes rounding collapse adjacent beats, see
the counterexample), the BeatGrid returned by `findOptimalGridOffset` is
strictly increasing, every entry is < `durationMs`, and its length equals
`floor(durationMs / (60000 / bpm))` to within one, the off-by-one coming
only from the final bounds filter. -/
theorem gridFitter_monotone_bounded (detectedBeats : List DetectedBeat)
    (adjustedBpm durationMs : ℚ) (hb : 0 < adjustedBpm)
    (hb2 : adjustedBpm ≤ 60000) (hdur : 0 < durationMs) :
    ((findOptimalGridOffset detectedBeats adjustedBpm durationMs).2.Pairwise (· < ·)) ∧
    (∀ t ∈ (findOptimalGridOffset detectedBeats adjustedBpm durationMs).2,
      (t : ℚ) < durationMs) ∧
    ⌊durationMs / (60000 / adjustedBpm)⌋.toNat ≤
      (findOptimalGridOffset detectedBeats adjustedBpm durationMs).2.length + 1 ∧
    (findOptimalGridOffset detectedBeats adjustedBpm durationMs).2.length ≤
      ⌊durationMs / (60000 / adjustedBpm)⌋.toNat := by
  have hIpos : 0 < 60000 / adjustedBpm := by positivity
  have hIone : 1 ≤ 60000 / adjustedBpm := by
    rw [le_div_iff hb]
    linarith
  obtain ⟨hoff0, hoffI⟩ := selectGridOffset_bounds detectedBeats (60000 / adjustedBpm)
    (⌊durationMs / (60000 / adjustedBpm)⌋.toNat) hIpos
  have hgrid : (findOptimalGridOffset detectedBeats adjustedBpm durationMs).2 =
      List.filter (fun (beatTime : ℤ) => decide ((beatTime : ℚ) < durationMs))
        ((List.range (⌊durationMs / (60000 / adjustedBpm)⌋.toNat)).map
          (fun (i : ℕ) => round (selectGridOffset detectedBeats (60000 / adjustedBpm)
            (⌊durationMs / (60000 / adjustedBpm)⌋.toNat) + (i : ℚ) * (60000 / adjustedBpm)))) :=
    rfl
  set I : ℚ := 60000 / adjustedBpm
  set nB : ℕ := ⌊durationMs / I⌋.toNat
  set goff : ℚ := selectGridOffset detectedBeats I nB
  have hnBle : (nB : ℚ) * I ≤ durationMs := by
    have h1 : ((⌊durationMs / I⌋ : ℤ) : ℚ) ≤ durationMs / I := Int.floor_le _
    have h2 : (0 : ℤ) ≤ ⌊durationMs / I⌋ := by
      rw [Int.floor_nonneg]
      positivity
    have h3 : ((nB : ℤ) : ℚ) = ((⌊durationMs / I⌋ : ℤ) : ℚ) := by
      exact_mod_cast congrArg (fun z : ℤ => (z : ℚ)) (Int.toNat_of_nonneg h2)
    have h4 : (nB : ℚ) ≤ durationMs / I := by
      rw [show ((nB : ℤ) : ℚ) = (nB : ℚ) from by push_cast; ring] at h3
      linarith
    calc (nB : ℚ) * I ≤ (durationMs / I) * I := by
          exact mul_le_mul_of_nonneg_right h4 hIpos.le
      _ = durationMs := by field_simp
  have hmono : ∀ a b : ℕ, a < b →
      round (goff + (a : ℚ) * I) < round (goff + (b : ℚ) * I) := by
    intro a b hab
    have hab1 : (a : ℚ) + 1 ≤ (b : ℚ) := by exact_mod_cast hab
    have hstep : goff + (a : ℚ) * I + 1 ≤ goff + (b : ℚ) * I := by
      have h1 : (1 : ℚ) * 1 ≤ ((b : ℚ) - (a : ℚ)) * I :=
        mul_le_mul (by linarith) hIone (by norm_num) (by linarith)
      nlinarith
    have h2 : round (goff + (a : ℚ) * I) + 1 ≤ round (goff + (b : ℚ) * I) := by
      have h3 := round_rat_mono hstep
      rw [show goff + (a : ℚ) * I + 1 = goff + (a : ℚ) * I + ((1 : ℤ) : ℚ) from by
        push_cast; ring] at h3
      rw [round_add_int] at h3
      exact h3
    omega
  refine ⟨?_, ?_, ?_, ?_⟩
  · rw [hgrid]
    apply List.Pairwise.filter
    rw [List.pairwise_map]
    exact (List.pairwise_lt_range nB).imp (fun hab => hmono _ _ hab)
  · intro t ht
    rw [hgrid] at ht
    have := List.of_mem_filter ht
    exact of_decide_eq_true this
  · -- lower bound on the length: all but possibly the last beat survive
    rw [hgrid]
    rcases hnB : nB with _ | m
    · omega
    · have hsplit : List.range (m + 1) = List.range m ++ [m] := List.range_succ m
      rw [hsplit, List.map_append, List.filter_append]
      have hkeep : ∀ i : ℕ, i < m →
          ((round (goff + (i : ℚ) * I) : ℚ) < durationMs) := by
        intro i hi
        have h1 : ((round (goff + (i : ℚ) * I) : ℤ) : ℚ) ≤ goff + (i : ℚ) * I + 1 / 2 :=
          round_le_add_half _
        have hi1 : (i : ℚ) ≤ (m : ℚ) - 1 := by
          have : (i : ℚ) + 1 ≤ (m : ℚ) := by exact_mod_cast hi
          linarith
        have h2 : (i : ℚ) * I ≤ ((m : ℚ) - 1) * I :=
          mul_le_mul_of_nonneg_right hi1 hIpos.le
        have h3 : ((m : ℚ) + 1) * I ≤ durationMs := by
          have : ((nB : ℚ)) = (m : ℚ) + 1 := by
            rw [hnB]
            push_cast
            ring
          rw [← this]
          exact hnBle
        nlinarith
      have hfirst : List.filter (fun (beatTime : ℤ) => decide ((beatTime : ℚ) < durationMs))
            ((List.range m).map (fun (i : ℕ) => round (goff + (i : ℚ) * I))) =
          (List.range m).map (fun (i : ℕ) => round (goff + (i : ℚ) * I)) := by
        rw [List.filter_eq_self]
        intro a ha
        obtain ⟨i, hi, rfl⟩ := List.mem_map.1 ha
        exact decide_eq_true (hkeep i (List.mem_range.1 hi))
      rw [hfirst]
      rw [List.length_append, List.length_map, List.length_range]
      omega
  · rw [hgrid]
    calc (List.filter (fun (beatTime : ℤ) => decide ((beatTime : ℚ) < durationMs))
          ((List.range nB).map (fun (i : ℕ) => round (goff + (i : ℚ) * I)))).length ≤
        ((List.range nB).map (fun (i : ℕ) => round (goff + (i : ℚ) * I))).length :=
          List.length_filter_le _ _
      _ = nB := by rw [List.length_map, List.length_range]

/-- Witness for C1 at concrete inputs: 120 bpm over 2000 ms (interval
500 ms ≥ 1 ms) with no onsets. -/
theorem gridFitter_monotone_bounded_witness :
    ((findOptimalGridOffset [] 120 2000).2.Pairwise (· < ·)) ∧
    (∀ t ∈ (findOptimalGridOffset [] 120 2000).2, (t : ℚ) < 2000) ∧
    ⌊(2000 : ℚ) / (60000 / 120)⌋.toNat ≤ (findOptimalGridOffset [] 120 2000).2.length + 1 ∧
    (findOptimalGridOffset [] 120 2000).2.length ≤ ⌊(2000 : ℚ) / (60000 / 120)⌋.toNat :=
  gridFitter_monotone_bounded [] 120 2000 (by norm_num) (by norm_num) (by norm_num)

/-! ## C6 — phrase span bounds, ordering, non-overlap -/

/-- In a strictly sorted grid, earlier in-bounds entries are smaller. -/
lemma getD_lt_of_sorted (beatTimes : List ℚ)
    (hsort : beatTimes.Pairwise (· < ·)) {i j : ℕ}
    (hij : i < j) (hj : j < beatTimes.length) :
    beatTimes.getD i 0 < beatTimes.getD j 0 := by
  have hi : i < beatTimes.length := lt_trans hij hj
  rw [List.getD_eq_getElem beatTimes 0 hi, List.getD_eq_getElem beatTimes 0 hj]
  exact List.pairwise_iff_getElem.1 hsort i j hi hj hij

/-- `phraseStep` preserves the phrase-loop invariant, moving the "before
bar" marker from `bar` to `bar + 1`. -/
lemma phraseStep_preserves (beatTimes barEnergies : List ℚ) (offset : ℕ)
    (thr : WithBot ℚ) (hsort : beatTimes.Pairwise (· < ·))
    (bar : ℕ) (acc : PhraseAcc)
    (hinv : PhraseInv beatTimes offset bar acc) :
    PhraseInv beatTimes offset (bar + 1)
      (phraseStep beatTimes barEnergies offset thr acc bar) := by
  obtain ⟨hlt, hgap, hspan, hend, hpair⟩ := hinv
  unfold phraseStep
  dsimp only
  split_ifs with hcut hguard
  · obtain ⟨hsig, hmin⟩ := hcut
    obtain ⟨hsb, heb⟩ := hguard
    unfold PhraseInv
    dsimp only
    refine ⟨Nat.lt_succ_self bar, by omega, ?_, ?_, ?_⟩
    · intro p hp
      rcases List.mem_append.1 hp with hp | hp
      · exact hspan p hp
      · rcases List.mem_singleton.1 hp with rfl
        have h1 : acc.phraseStartBar + (bar - acc.phraseStartBar) = bar := by omega
        refine ⟨acc.phraseStartBar, bar - acc.phraseStartBar, hmin, by omega, ?_, rfl, ?_⟩
        · rw [h1]
          omega
        · rw [h1]
    · intro p hp
      rcases List.mem_append.1 hp with hp | hp
      · obtain ⟨e, he1, he2, he3⟩ := hend p hp
        exact ⟨e, by omega, he2, he3⟩
      · rcases List.mem_singleton.1 hp with rfl
        exact ⟨bar * 4 + offset - 1, by omega, heb, rfl⟩
    · rw [List.pairwise_append]
      refine ⟨hpair, by simp, ?_⟩
      intro p hp q hq
      rcases List.mem_singleton.1 hq with rfl
      obtain ⟨e, he1, he2, he3⟩ := hend p hp
      dsimp only
      rw [he3]
      exact getD_lt_of_sorted beatTimes hsort he1 hsb
  · unfold PhraseInv
    dsimp only
    refine ⟨Nat.lt_succ_self bar, by omega, hspan, ?_, hpair⟩
    intro p hp
    obtain ⟨e, he1, he2, he3⟩ := hend p hp
    exact ⟨e, by omega, he2, he3⟩
  · unfold PhraseInv
    refine ⟨by omega, ?_, hspan, hend, hpair⟩
    by_contra hcon
    push_neg at hcon
    have h8 : 8 ≤ bar - acc.phraseStartBar := by omega
    exact hcut ⟨Or.inr h8, by omega⟩

/-- The phrase-loop invariant holds after processing bars `1 … m`. -/
lemma phraseLoop_inv (beatTimes barEnergies : List ℚ) (offset : ℕ)
    (thr : WithBot ℚ) (hsort : beatTimes.Pairwise (· < ·)) :
    ∀ m : ℕ, PhraseInv beatTimes offset (m + 1)
      ((List.range' 1 m).foldl (phraseStep beatTimes barEnergies offset thr)
        ⟨[], 0⟩) := by
  intro m
  induction m with
  | zero =>
    refine ⟨Nat.zero_lt_one, by omega, ?_, ?_, ?_⟩ <;> simp
  | succ m ih =>
    rw [List.range'_1_concat, List.foldl_append, List.foldl_cons, List.foldl_nil]
    rw [show 1 + m = m + 1 from Nat.add_comm 1 m]
    exact phraseStep_preserves beatTimes barEnergies offset thr hsort (m + 1) _ ih

/-- When the bar loop runs at all, its bar count fits inside the grid with
a beat to spare: `offset + 4·count + 1 ≤ length`. -/
lemma barLoopCount_bound (offset len : ℕ) (h : 1 ≤ barLoopCount offset len) :
    offset + 4 * barLoopCount offset len + 1 ≤ len := by
  unfold barLoopCount at *
  have h1 : ((len - 4) - offset + 3) / 4 * 4 ≤ (len - 4) - offset + 3 :=
    Nat.div_mul_le_self _ _
  have h2 : 1 * 4 ≤ (len - 4) - offset + 3 :=
    (Nat.le_div_iff_mul_le (by norm_num)).1 h
  omega

/-- The trailing-phrase step of `detectPhrases` preserves the span and
ordering properties. -/
lemma phraseFinal_spans (beatTimes : List ℚ) (offset : ℕ) (acc : PhraseAcc)
    (count : ℕ) (hsort : beatTimes.Pairwise (· < ·))
    (hinv : PhraseInv beatTimes offset count acc)
    (hcb : offset + 4 * count + 1 ≤ beatTimes.length) :
    (∀ p ∈ (if 4 ≤ count - acc.phraseStartBar then
        acc.phrases ++ [⟨beatTimes.getD (acc.phraseStartBar * 4 + offset) 0,
          beatTimes.getD (min (beatTimes.length - 1)
            ((acc.phraseStartBar + (count - acc.phraseStartBar)) * 4 + offset - 1)) 0⟩]
      else acc.phrases), SpanOK beatTimes offset p) ∧
    (if 4 ≤ count - acc.phraseStartBar then
        acc.phrases ++ [⟨beatTimes.getD (acc.phraseStartBar * 4 + offset) 0,
          beatTimes.getD (min (beatTimes.length - 1)
            ((acc.phraseStartBar + (count - acc.phraseStartBar)) * 4 + offset - 1)) 0⟩]
      else acc.phrases).Pairwise (fun p q => p.endTime < q.startTime) := by
  obtain ⟨hlt, hgap, hspan, hend, hpair⟩ := hinv
  by_cases htrail : 4 ≤ count - acc.phraseStartBar
  · rw [if_pos htrail]
    have hsum : acc.phraseStartBar + (count - acc.phraseStartBar) = count := by omega
    have hmin : min (beatTimes.length - 1)
        ((acc.phraseStartBar + (count - acc.phraseStartBar)) * 4 + offset - 1) =
        (acc.phraseStartBar + (count - acc.phraseStartBar)) * 4 + offset - 1 := by
      apply min_eq_right
      rw [hsum]
      omega
    constructor
    · intro p hp
      rcases List.mem_append.1 hp with hp | hp
      · exact hspan p hp
      · rcases List.mem_singleton.1 hp with rfl
        refine ⟨acc.phraseStartBar, count - acc.phraseStartBar, htrail, hgap, ?_, rfl, ?_⟩
        · rw [hsum]
          omega
        · rw [hmin]
    · rw [List.pairwise_append]
      refine ⟨hpair, by simp, ?_⟩
      intro p hp q hq
      rcases List.mem_singleton.1 hq with rfl
      obtain ⟨e, he1, he2, he3⟩ := hend p hp
      dsimp only
      rw [he3]
      exact getD_lt_of_sorted beatTimes hsort he1 (by omega)
  · rw [if_neg htrail]
    exact ⟨hspan, hpair⟩

/-- C6: for any strictly increasing BeatGrid, any onsets and any downbeat
offset, every phrase emitted by `detectPhrases` is bar-aligned and spans
at least 4 and at most 8 bars (no exceptions are even needed at the
start/end), and the emitted phrases are non-overlapping and ordered by
`startTime` (each phrase ends strictly before the next begins). -/
theorem detectPhrases_spans_ordered (beatTimes : List ℚ)
    (detectedBeats : List DetectedBeat) (bestOffset : ℕ)
    (hsort : beatTimes.Pairwise (· < ·)) :
    (∀ p ∈ detectPhrases beatTimes detectedBeats bestOffset,
      SpanOK beatTimes bestOffset p) ∧
    (detectPhrases beatTimes detectedBeats bestOffset).Pairwise
      (fun p q => p.endTime < q.startTime) := by
  have hcount : (barEnergiesOf beatTimes detectedBeats bestOffset).length =
      barLoopCount bestOffset beatTimes.length := by
    unfold barEnergiesOf barIndexList
    rw [List.length_map, List.length_map, List.length_range]
  rcases Nat.eq_zero_or_pos (barEnergiesOf beatTimes detectedBeats bestOffset).length
    with hzero | hpos
  · unfold detectPhrases
    dsimp only
    rw [hzero]
    rw [show (0 : ℕ) - 1 = 0 from rfl]
    rw [show List.range' 1 0 = [] from rfl, List.foldl_nil]
    rw [if_neg (by norm_num : ¬ (4 : ℕ) ≤ 0 - (⟨[], 0⟩ : PhraseAcc).phraseStartBar)]
    exact ⟨fun p hp => absurd hp (List.not_mem_nil p), List.Pairwise.nil⟩
  · have h1count : 1 ≤ barLoopCount bestOffset beatTimes.length := by omega
    have hcb := barLoopCount_bound bestOffset beatTimes.length h1count
    rw [← hcount] at hcb
    have hm : (barEnergiesOf beatTimes detectedBeats bestOffset).length - 1 + 1 =
        (barEnergiesOf beatTimes detectedBeats bestOffset).length := by omega
    have hinv := phraseLoop_inv beatTimes (barEnergiesOf beatTimes detectedBeats bestOffset)
      bestOffset (energyThresholdOf (barEnergiesOf beatTimes detectedBeats bestOffset)) hsort
      ((barEnergiesOf beatTimes detectedBeats bestOffset).length - 1)
    rw [hm] at hinv
    unfold detectPhrases
    dsimp only
    exact phraseFinal_spans beatTimes bestOffset _ _ hsort hinv hcb

/-- Witness for C6 at a concrete input: the strictly increasing 64-beat
grid with no onsets. -/
theorem detectPhrases_spans_ordered_witness :
    grid64.Pairwise (· < ·) ∧
    ((∀ p ∈ detectPhrases grid64 [] 0, SpanOK grid64 0 p) ∧
      (detectPhrases grid64 [] 0).Pairwise (fun p q => p.endTime < q.startTime)) := by
  have hsort : grid64.Pairwise (· < ·) := by
    unfold grid64
    rw [List.pairwise_map]
    refine (List.pairwise_lt_range 64).imp ?_
    intro a b hab
    have h : (a : ℚ) < (b : ℚ) := by exact_mod_cast hab
    nlinarith
  exact ⟨hsort, detectPhrases_spans_ordered grid64 [] 0 hsort⟩

/-! ## C7 — downbeat resolution on 4-periodic onsets -/

/-- Filtering `range n` for the single index `m < n` (conjoined with any
other test) keeps exactly `[m]` when the other test passes at `m`. -/
lemma range_filter_single (n m : ℕ) (q : ℕ → Bool) (hm : m < n) :
    (List.range n).filter (fun i => decide (i = m) && q i) =
      if q m then [m] else [] := by
  induction n with
  | zero => omega
  | succ n ih =>
    rw [List.range_succ, List.filter_append]
    by_cases hmn : m < n
    · rw [ih hmn]
      have hne : ¬ (n = m) := by omega
      have hlast : List.filter (fun i => decide (i = m) && q i) [n] = [] := by
        simp [hne]
      rw [hlast, List.append_nil]
    · have hmeq : m = n := by omega
      subst hmeq
      have hfirst : List.filter (fun i => decide (i = m) && q i) (List.range m) = [] := by
        rw [List.filter_eq_nil_iff]
        intro a ha
        have haa := List.mem_range.1 ha
        have hne : ¬ (a = m) := by omega
        simp [hne]
      rw [hfirst, List.nil_append]
      by_cases hq : q m
      · simp [hq]
      · simp [hq]

/-- On the 4-periodic onset list, the only onset within 100 ms of grid
point `m·d` (for `d ≥ 100`) is the one at `m·d` itself, present exactly
when `m ≡ 0 (mod 4)`. -/
lemma fourPeriodic_nearby (d : ℚ) (L m : ℕ) (hd : 100 ≤ d) (hm : m < L) :
    nearbyFilter (fourPeriodicOnsets d L) ((m : ℚ) * d) =
      if m % 4 = 0 then [⟨(m : ℚ) * d, 1⟩] else [] := by
  unfold nearbyFilter fourPeriodicOnsets
  rw [List.filter_map, List.filter_filter]
  simp only [Function.comp]
  dsimp only
  have hpt : ∀ i ∈ List.range L,
      (decide (|(i : ℚ) * d - (m : ℚ) * d| < 100) && (i % 4 == 0)) =
        (decide (i = m) && (i % 4 == 0)) := by
    intro i hi
    congr 1
    rw [decide_eq_decide]
    constructor
    · intro habs
      by_contra hne
      have h1 : (1 : ℚ) ≤ |(i : ℚ) - (m : ℚ)| := by
        have h2 : ((i : ℤ) - (m : ℤ)) ≠ 0 := by
          intro h
          apply hne
          omega
        have h3 := Int.one_le_abs h2
        exact_mod_cast h3
      have h5 : |(i : ℚ) * d - (m : ℚ) * d| = |(i : ℚ) - (m : ℚ)| * d := by
        rw [← sub_mul, abs_mul, abs_of_nonneg (by linarith : (0 : ℚ) ≤ d)]
      rw [h5] at habs
      nlinarith
    · intro h
      subst h
      simp
  rw [List.filter_congr hpt, range_filter_single L m (fun i => i % 4 == 0) hm]
  by_cases h4 : m % 4 = 0
  · rw [if_pos h4, if_pos (by simpa using h4), List.map_cons, List.map_nil]
  · rw [if_neg h4, if_neg (by simpa using h4), List.map_nil]

/-- Weighted nearby sum at grid point `m·d` of the 4-periodic onsets. -/
lemma fourPeriodic_weightedSum (d : ℚ) (L m : ℕ) (hd : 100 ≤ d) (hm : m < L) :
    weightedNearbySum (fourPeriodicOnsets d L) ((m : ℚ) * d) =
      if m % 4 = 0 then 1 else 0 := by
  unfold weightedNearbySum
  rw [fourPeriodic_nearby d L m hd hm]
  by_cases h : m % 4 = 0
  · rw [if_pos h, if_pos h]
    simp
  · rw [if_neg h, if_neg h]
    simp

/-- Plain nearby sum at grid point `m·d` of the 4-periodic onsets. -/
lemma fourPeriodic_plainSum (d : ℚ) (L m : ℕ) (hd : 100 ≤ d) (hm : m < L) :
    plainNearbySum (fourPeriodicOnsets d L) ((m : ℚ) * d) =
      if m % 4 = 0 then 1 else 0 := by
  unfold plainNearbySum
  rw [fourPeriodic_nearby d L m hd hm]
  by_cases h : m % 4 = 0
  · rw [if_pos h, if_pos h]
    simp
  · rw [if_neg h, if_neg h]
    simp

/-- Max nearby confidence at grid point `m·d` of the 4-periodic onsets. -/
lemma fourPeriodic_maxConf (d : ℚ) (L m : ℕ) (hd : 100 ≤ d) (hm : m < L) :
    beatMaxConfidence (fourPeriodicOnsets d L) ((m : ℚ) * d) =
      if m % 4 = 0 then 1 else 0 := by
  unfold beatMaxConfidence
  rw [fourPeriodic_nearby d L m hd hm]
  by_cases h : m % 4 = 0
  · rw [if_pos h, if_pos h]
    simp
  · rw [if_neg h, if_neg h]
    simp

/-- Entries of the uniform grid. -/
lemma uniformGrid_getD (d : ℚ) (L n : ℕ) (h : n < L) :
    (uniformGrid d L).getD n 0 = (n : ℚ) * d := by
  unfold uniformGrid
  rw [List.getD_eq_getElem _ _ (by simpa using h), List.getElem_map, List.getElem_range]

/-- Length of the uniform grid. -/
lemma uniformGrid_length (d : ℚ) (L : ℕ) : (uniformGrid d L).length = L := by
  unfold uniformGrid
  rw [List.length_map, List.length_range]

unseal Rat.add Rat.sub Rat.mul Rat.inv Rat.ofScientific in
/-- Template score of a bar whose only strength sits on the downbeat. -/
lemma barPatternScore_e0 : barPatternScore [1, 0, 0, 0] = 15 / 2 := by decide

unseal Rat.add Rat.sub Rat.mul Rat.inv Rat.ofScientific in
/-- Template score of a bar whose only strength sits on beat 2. -/
lemma barPatternScore_e1 : barPatternScore [0, 1, 0, 0] = 39 / 10 := by decide

unseal Rat.add Rat.sub Rat.mul Rat.inv Rat.ofScientific in
/-- Template score of a bar whose only strength sits on beat 3. -/
lemma barPatternScore_e2 : barPatternScore [0, 0, 1, 0] = 57 / 10 := by decide

unseal Rat.add Rat.sub Rat.mul Rat.inv Rat.ofScientific in
/-- Template score of a bar whose only strength sits on beat 4. -/
lemma barPatternScore_e3 : barPatternScore [0, 0, 0, 1] = 39 / 10 := by decide

/-- Bar strengths on the uniform grid with 4-periodic onsets: an indicator
of the beat position that is ≡ 0 (mod 4). -/
lemma barBeatsAt_char (d : ℚ) (L i : ℕ) (hd : 100 ≤ d) (hi : i + 4 < L) :
    barBeatsAt (uniformGrid d L) (fourPeriodicOnsets d L) i =
      [if i % 4 = 0 then 1 else 0, if (i + 1) % 4 = 0 then 1 else 0,
        if (i + 2) % 4 = 0 then 1 else 0, if (i + 3) % 4 = 0 then 1 else 0] := by
  unfold barBeatsAt
  rw [show List.range 4 = [0, 1, 2, 3] from rfl]
  simp only [List.map_cons, List.map_nil, Nat.add_zero]
  rw [uniformGrid_getD d L i (by omega), uniformGrid_getD d L (i + 1) (by omega),
    uniformGrid_getD d L (i + 2) (by omega), uniformGrid_getD d L (i + 3) (by omega)]
  rw [fourPeriodic_weightedSum d L i hd (by omega),
    fourPeriodic_weightedSum d L (i + 1) hd (by omega),
    fourPeriodic_weightedSum d L (i + 2) hd (by omega),
    fourPeriodic_weightedSum d L (i + 3) hd (by omega)]

/-- Bar max confidences on the uniform grid with 4-periodic onsets. -/
lemma barConfidencesAt_char (d : ℚ) (L i : ℕ) (hd : 100 ≤ d) (hi : i + 4 < L) :
    barConfidencesAt (uniformGrid d L) (fourPeriodicOnsets d L) i =
      [if i % 4 = 0 then 1 else 0, if (i + 1) % 4 = 0 then 1 else 0,
        if (i + 2) % 4 = 0 then 1 else 0, if (i + 3) % 4 = 0 then 1 else 0] := by
  unfold barConfidencesAt
  rw [show List.range 4 = [0, 1, 2, 3] from rfl]
  simp only [List.map_cons, List.map_nil, Nat.add_zero]
  rw [uniformGrid_getD d L i (by omega), uniformGrid_getD d L (i + 1) (by omega),
    uniformGrid_getD d L (i + 2) (by omega), uniformGrid_getD d L (i + 3) (by omega)]
  rw [fourPeriodic_maxConf d L i hd (by omega),
    fourPeriodic_maxConf d L (i + 1) hd (by omega),
    fourPeriodic_maxConf d L (i + 2) hd (by omega),
    fourPeriodic_maxConf d L (i + 3) hd (by omega)]

/-- One `getOffsetScore` bar starting on a downbeat-aligned index. -/
lemma offsetScoreStep_res0 (d : ℚ) (L i : ℕ) (hd : 100 ≤ d) (hi : i + 4 < L)
    (h4 : i % 4 = 0) (acc : OffsetScoreAcc) :
    offsetScoreStep (uniformGrid d L) (fourPeriodicOnsets d L) acc i =
      ⟨acc.score + 2, acc.totalConfidence + 1, acc.patternScore + 15 / 2,
        acc.consistencyScore + 3 / 4⟩ := by
  unfold offsetScoreStep
  rw [barBeatsAt_char d L i hd hi, barConfidencesAt_char d L i hd hi]
  rw [if_pos h4, if_neg (by omega : ¬ (i + 1) % 4 = 0),
    if_neg (by omega : ¬ (i + 2) % 4 = 0), if_neg (by omega : ¬ (i + 3) % 4 = 0)]
  dsimp only
  rw [barPatternScore_e0]
  simp only [List.getD_cons_zero, List.getD_cons_succ, List.foldl_cons, List.foldl_nil]
  rw [if_pos (by norm_num : ((0 : ℚ) + 0 + 0) / 3 < 1),
    if_pos (by norm_num : (0 + (1 : ℚ) + 0 + 0 + 0) / 4 < 1)]
  simp only [OffsetScoreAcc.mk.injEq]
  refine ⟨by ring, by ring, by ring, by ring⟩

/-- One `getOffsetScore` bar starting one beat after a downbeat. -/
lemma offsetScoreStep_res3 (d : ℚ) (L i : ℕ) (hd : 100 ≤ d) (hi : i + 4 < L)
    (h4 : i % 4 = 3) (acc : OffsetScoreAcc) :
    offsetScoreStep (uniformGrid d L) (fourPeriodicOnsets d L) acc i =
      ⟨acc.score, acc.totalConfidence, acc.patternScore + 39 / 10,
        acc.consistencyScore⟩ := by
  unfold offsetScoreStep
  rw [barBeatsAt_char d L i hd hi, barConfidencesAt_char d L i hd hi]
  rw [if_neg (by omega : ¬ i % 4 = 0), if_pos (by omega : (i + 1) % 4 = 0),
    if_neg (by omega : ¬ (i + 2) % 4 = 0), if_neg (by omega : ¬ (i + 3) % 4 = 0)]
  dsimp only
  rw [barPatternScore_e1]
  simp only [List.getD_cons_zero, List.getD_cons_succ, List.foldl_cons, List.foldl_nil]
  rw [if_neg (by norm_num : ¬ ((1 : ℚ) + 0 + 0) / 3 < 0),
    if_neg (by norm_num : ¬ (0 + (0 : ℚ) + 1 + 0 + 0) / 4 < 0)]
  simp only [OffsetScoreAcc.mk.injEq]
  refine ⟨by ring, by ring, by ring, by ring⟩

/-- One `getOffsetScore` bar starting two beats after a downbeat. -/
lemma offsetScoreStep_res2 (d : ℚ) (L i : ℕ) (hd : 100 ≤ d) (hi : i + 4 < L)
    (h4 : i % 4 = 2) (acc : OffsetScoreAcc) :
    offsetScoreStep (uniformGrid d L) (fourPeriodicOnsets d L) acc i =
      ⟨acc.score, acc.totalConfidence, acc.patternScore + 57 / 10,
        acc.consistencyScore⟩ := by
  unfold offsetScoreStep
  rw [barBeatsAt_char d L i hd hi, barConfidencesAt_char d L i hd hi]
  rw [if_neg (by omega : ¬ i % 4 = 0), if_neg (by omega : ¬ (i + 1) % 4 = 0),
    if_pos (by omega : (i + 2) % 4 = 0), if_neg (by omega : ¬ (i + 3) % 4 = 0)]
  dsimp only
  rw [barPatternScore_e2]
  simp only [List.getD_cons_zero, List.getD_cons_succ, List.foldl_cons, List.foldl_nil]
  rw [if_neg (by norm_num : ¬ ((0 : ℚ) + 1 + 0) / 3 < 0),
    if_neg (by norm_num : ¬ (0 + (0 : ℚ) + 0 + 1 + 0) / 4 < 0)]
  simp only [OffsetScoreAcc.mk.injEq]
  refine ⟨by ring, by ring, by ring, by ring⟩

/-- One `getOffsetScore` bar starting three beats after a downbeat. -/
lemma offsetScoreStep_res1 (d : ℚ) (L i : ℕ) (hd : 100 ≤ d) (hi : i + 4 < L)
    (h4 : i % 4 = 1) (acc : OffsetScoreAcc) :
    offsetScoreStep (uniformGrid d L) (fourPeriodicOnsets d L) acc i =
      ⟨acc.score, acc.totalConfidence, acc.patternScore + 39 / 10,
        acc.consistencyScore⟩ := by
  unfold offsetScoreStep
  rw [barBeatsAt_char d L i hd hi, barConfidencesAt_char d L i hd hi]
  rw [if_neg (by omega : ¬ i % 4 = 0), if_neg (by omega : ¬ (i + 1) % 4 = 0),
    if_neg (by omega : ¬ (i + 2) % 4 = 0), if_pos (by omega : (i + 3) % 4 = 0)]
  dsimp only
  rw [barPatternScore_e3]
  simp only [List.getD_cons_zero, List.getD_cons_succ, List.foldl_cons, List.foldl_nil]
  rw [if_neg (by norm_num : ¬ ((0 : ℚ) + 0 + 1) / 3 < 0),
    if_neg (by norm_num : ¬ (0 + (0 : ℚ) + 0 + 0 + 1) / 4 < 0)]
  simp only [OffsetScoreAcc.mk.injEq]
  refine ⟨by ring, by ring, by ring, by ring⟩

/-- Members of `barIndexList` keep the offset's residue and leave room for
a whole bar. -/
lemma barIndexList_mem (offset len : ℕ) {i : ℕ} (h : i ∈ barIndexList offset len) :
    i % 4 = offset % 4 ∧ i + 4 < len := by
  unfold barIndexList at h
  obtain ⟨k, hk, rfl⟩ := List.mem_map.1 h
  have hk2 := List.mem_range.1 hk
  unfold barLoopCount at hk2
  constructor
  · omega
  · have h1 : (((len - 4) - offset + 3) / 4) * 4 ≤ (len - 4) - offset + 3 :=
      Nat.div_mul_le_self _ _
  
    have h3 : 1 ≤ ((len - 4) - offset + 3) / 4 := by omega
    have h4 : 1 * 4 ≤ (len - 4) - offset + 3 :=
      (Nat.le_div_iff_mul_le (by norm_num)).1 h3
    omega

/-- Length of the bar-start index list. -/
lemma barIndexList_length (offset len : ℕ) :
    (barIndexList offset len).length = barLoopCount offset len := by
  unfold barIndexList
  rw [List.length_map, List.length_range]

/-- When every bar of the loop adds the same quadruple, the fold adds the
quadruple `length` times. -/
lemma offsetScore_fold_const (g : List ℚ) (os : List DetectedBeat) (s t p c : ℚ) :
    ∀ l : List ℕ,
      (∀ i ∈ l, ∀ acc : OffsetScoreAcc,
        offsetScoreStep g os acc i =
          ⟨acc.score + s, acc.totalConfidence + t, acc.patternScore + p,
            acc.consistencyScore + c⟩) →
      ∀ acc : OffsetScoreAcc,
        l.foldl (offsetScoreStep g os) acc =
          ⟨acc.score + l.length * s, acc.totalConfidence + l.length * t,
            acc.patternScore + l.length * p, acc.consistencyScore + l.length * c⟩ := by
  intro l
  induction l with
  | nil =>
    intro _ acc
    cases acc
    simp
  | cons i l ih =>
    intro hstep acc
    rw [List.foldl_cons, hstep i (List.mem_cons_self i l) acc,
      ih (fun j hj a => hstep j (List.mem_cons_of_mem i hj) a)]
    simp only [List.length_cons, OffsetScoreAcc.mk.injEq]
    refine ⟨?_, ?_, ?_, ?_⟩ <;> push_cast <;> ring

/-- Phase-candidate score at offset 0 on the uniform grid with 4-periodic
onsets: 3.3 per bar of the loop. -/
lemma getOffsetScore_uniform0 (d : ℚ) (L : ℕ) (hd : 100 ≤ d) :
    getOffsetScore 0 (uniformGrid d L) (fourPeriodicOnsets d L) =
      (barLoopCount 0 L : ℚ) * (33 / 10) := by
  unfold getOffsetScore
  rw [uniformGrid_length]
  have hstep : ∀ i ∈ barIndexList 0 L, ∀ acc : OffsetScoreAcc,
      offsetScoreStep (uniformGrid d L) (fourPeriodicOnsets d L) acc i =
        ⟨acc.score + 2, acc.totalConfidence + 1, acc.patternScore + 15 / 2,
          acc.consistencyScore + 3 / 4⟩ := by
    intro i hi acc
    obtain ⟨hmod, hlt⟩ := barIndexList_mem 0 L hi
    exact offsetScoreStep_res0 d L i hd hlt (by omega) acc
  rw [offsetScore_fold_const (uniformGrid d L) (fourPeriodicOnsets d L) 2 1 (15 / 2) (3 / 4)
    (barIndexList 0 L) hstep ⟨0, 0, 0, 0⟩]
  dsimp only
  rw [barIndexList_length]
  rw [show (0.4 : ℚ) = 2 / 5 from by norm_num, show (0.3 : ℚ) = 3 / 10 from by norm_num,
    show (0.2 : ℚ) = 1 / 5 from by norm_num, show (0.1 : ℚ) = 1 / 10 from by norm_num]
  ring

/-- Phase-candidate score at offset 1 on the uniform grid with 4-periodic
onsets: 1.17 per bar of the loop. -/
lemma getOffsetScore_uniform1 (d : ℚ) (L : ℕ) (hd : 100 ≤ d) :
    getOffsetScore 1 (uniformGrid d L) (fourPeriodicOnsets d L) =
      (barLoopCount 1 L : ℚ) * (117 / 100) := by
  unfold getOffsetScore
  rw [uniformGrid_length]
  have hstep : ∀ i ∈ barIndexList 1 L, ∀ acc : OffsetScoreAcc,
      offsetScoreStep (uniformGrid d L) (fourPeriodicOnsets d L) acc i =
        ⟨acc.score + 0, acc.totalConfidence + 0, acc.patternScore + 39 / 10,
          acc.consistencyScore + 0⟩ := by
    intro i hi acc
    obtain ⟨hmod, hlt⟩ := barIndexList_mem 1 L hi
    rw [offsetScoreStep_res1 d L i hd hlt (by omega) acc]
    simp only [add_zero]
  rw [offsetScore_fold_const (uniformGrid d L) (fourPeriodicOnsets d L) 0 0 (39 / 10) 0
    (barIndexList 1 L) hstep ⟨0, 0, 0, 0⟩]
  dsimp only
  rw [barIndexList_length]
  rw [show (0.4 : ℚ) = 2 / 5 from by norm_num, show (0.3 : ℚ) = 3 / 10 from by norm_num,
    show (0.2 : ℚ) = 1 / 5 from by norm_num, show (0.1 : ℚ) = 1 / 10 from by norm_num]
  ring

/-- Phase-candidate score at offset 2 on the uniform grid with 4-periodic
onsets: 1.71 per bar of the loop. -/
lemma getOffsetScore_uniform2 (d : ℚ) (L : ℕ) (hd : 100 ≤ d) :
    getOffsetScore 2 (uniformGrid d L) (fourPeriodicOnsets d L) =
      (barLoopCount 2 L : ℚ) * (171 / 100) := by
  unfold getOffsetScore
  rw [uniformGrid_length]
  have hstep : ∀ i ∈ barIndexList 2 L, ∀ acc : OffsetScoreAcc,
      offsetScoreStep (uniformGrid d L) (fourPeriodicOnsets d L) acc i =
        ⟨acc.score + 0, acc.totalConfidence + 0, acc.patternScore + 57 / 10,
          acc.consistencyScore + 0⟩ := by
    intro i hi acc
    obtain ⟨hmod, hlt⟩ := barIndexList_mem 2 L hi
    rw [offsetScoreStep_res2 d L i hd hlt (by omega) acc]
    simp only [add_zero]
  rw [offsetScore_fold_const (uniformGrid d L) (fourPeriodicOnsets d L) 0 0 (57 / 10) 0
    (barIndexList 2 L) hstep ⟨0, 0, 0, 0⟩]
  dsimp only
  rw [barIndexList_length]
  rw [show (0.4 : ℚ) = 2 / 5 from by norm_num, show (0.3 : ℚ) = 3 / 10 from by norm_num,
    show (0.2 : ℚ) = 1 / 5 from by norm_num, show (0.1 : ℚ) = 1 / 10 from by norm_num]
  ring

/-- Phase-candidate score at offset 3 on the uniform grid with 4-periodic
onsets: 1.17 per bar of the loop. -/
lemma getOffsetScore_uniform3 (d : ℚ) (L : ℕ) (hd : 100 ≤ d) :
    getOffsetScore 3 (uniformGrid d L) (fourPeriodicOnsets d L) =
      (barLoopCount 3 L : ℚ) * (117 / 100) := by
  unfold getOffsetScore
  rw [uniformGrid_length]
  have hstep : ∀ i ∈ barIndexList 3 L, ∀ acc : OffsetScoreAcc,
      offsetScoreStep (uniformGrid d L) (fourPeriodicOnsets d L) acc i =
        ⟨acc.score + 0, acc.totalConfidence + 0, acc.patternScore + 39 / 10,
          acc.consistencyScore + 0⟩ := by
    intro i hi acc
    obtain ⟨hmod, hlt⟩ := barIndexList_mem 3 L hi
    rw [offsetScoreStep_res3 d L i hd hlt (by omega) acc]
    simp only [add_zero]
  rw [offsetScore_fold_const (uniformGrid d L) (fourPeriodicOnsets d L) 0 0 (39 / 10) 0
    (barIndexList 3 L) hstep ⟨0, 0, 0, 0⟩]
  dsimp only
  rw [barIndexList_length]
  rw [show (0.4 : ℚ) = 2 / 5 from by norm_num, show (0.3 : ℚ) = 3 / 10 from by norm_num,
    show (0.2 : ℚ) = 1 / 5 from by norm_num, show (0.1 : ℚ) = 1 / 10 from by norm_num]
  ring

/-- C7: for a synthetic onset list with confidence 1.0 exactly at the
BeatGrid entries of indices 0, 4, 8, 12, ... and no onsets elsewhere (a
uniform grid of spacing `d ≥ 100` ms and length `L ≥ 5`),
`findBestDownbeatOffset` selects offset 0: offset 0 scores 3.3 per bar
while the other phases score at most 1.71 per bar, so the 1.2× ratio test
passes and the sorted top candidate (0) is returned. -/
theorem downbeat_resolver_periodic_selects_zero (d : ℚ) (L : ℕ) (hd : 100 ≤ d) (hL : 5 ≤ L) :
    findBestDownbeatOffset (uniformGrid d L) (fourPeriodicOnsets d L) = 0 := by
  have hn0 : 1 ≤ barLoopCount 0 L := by
    unfold barLoopCount
    rw [Nat.le_div_iff_mul_le (by norm_num : 0 < 4)]
    omega
  have hq0 : (1 : ℚ) ≤ (barLoopCount 0 L : ℚ) := by exact_mod_cast hn0
  have hq1 : ((barLoopCount 1 L : ℚ)) ≤ (barLoopCount 0 L : ℚ) := by
    have h : barLoopCount 1 L ≤ barLoopCount 0 L := by
      unfold barLoopCount
      exact Nat.div_le_div_right (by omega)
    exact_mod_cast h
  have hq2 : ((barLoopCount 2 L : ℚ)) ≤ (barLoopCount 0 L : ℚ) := by
    have h : barLoopCount 2 L ≤ barLoopCount 0 L := by
      unfold barLoopCount
      exact Nat.div_le_div_right (by omega)
    exact_mod_cast h
  have hq3 : ((barLoopCount 3 L : ℚ)) ≤ (barLoopCount 0 L : ℚ) := by
    have h : barLoopCount 3 L ≤ barLoopCount 0 L := by
      unfold barLoopCount
      exact Nat.div_le_div_right (by omega)
    exact_mod_cast h
  unfold findBestDownbeatOffset
  dsimp only
  simp only [List.map_cons, List.map_nil]
  rw [getOffsetScore_uniform0 d L hd, getOffsetScore_uniform1 d L hd,
    getOffsetScore_uniform2 d L hd, getOffsetScore_uniform3 d L hd]
  set P0 : ℕ × ℚ := (0, (barLoopCount 0 L : ℚ) * (33 / 10)) with hP0
  set P1 : ℕ × ℚ := (1, (barLoopCount 1 L : ℚ) * (117 / 100)) with hP1
  set P2 : ℕ × ℚ := (2, (barLoopCount 2 L : ℚ) * (171 / 100)) with hP2
  set P3 : ℕ × ℚ := (3, (barLoopCount 3 L : ℚ) * (117 / 100)) with hP3
  have htrans : ∀ a b c : ℕ × ℚ,
      (fun a b : ℕ × ℚ => decide (b.2 ≤ a.2)) a b = true →
      (fun a b : ℕ × ℚ => decide (b.2 ≤ a.2)) b c = true →
      (fun a b : ℕ × ℚ => decide (b.2 ≤ a.2)) a c = true := by
    intro a b c h1 h2
    simp only [decide_eq_true_eq] at h1 h2 ⊢
    exact le_trans h2 h1
  have htot : ∀ a b : ℕ × ℚ,
      ((fun a b : ℕ × ℚ => decide (b.2 ≤ a.2)) a b ||
        (fun a b : ℕ × ℚ => decide (b.2 ≤ a.2)) b a) = true := by
    intro a b
    simp only [Bool.or_eq_true, decide_eq_true_eq]
    exact le_total b.2 a.2
  have hsorted := List.sorted_mergeSort htrans htot [P0, P1, P2, P3]
  have hperm := List.mergeSort_perm [P0, P1, P2, P3] (fun a b : ℕ × ℚ => decide (b.2 ≤ a.2))
  have hlen : ([P0, P1, P2, P3].mergeSort (fun a b : ℕ × ℚ => decide (b.2 ≤ a.2))).length = 4 := by
    rw [List.length_mergeSort]
    rfl
  obtain ⟨A, tl, hAeq⟩ : ∃ A tl,
      [P0, P1, P2, P3].mergeSort (fun a b : ℕ × ℚ => decide (b.2 ≤ a.2)) = A :: tl := by
    rcases hms : [P0, P1, P2, P3].mergeSort (fun a b : ℕ × ℚ => decide (b.2 ≤ a.2)) with _ | ⟨A, tl⟩
    · rw [hms] at hlen
      simp at hlen
    · exact ⟨A, tl, rfl⟩
  rw [hAeq] at hperm hsorted
  have hgeA : ∀ x ∈ tl, x.2 ≤ A.2 := by
    intro x hx
    have h := (List.pairwise_cons.1 hsorted).1 x hx
    simpa using h
  have hP0mem : P0 ∈ A :: tl := hperm.mem_iff.2 (by simp)
  have hAmem : A ∈ ([P0, P1, P2, P3] : List (ℕ × ℚ)) := hperm.subset (List.mem_cons_self A tl)
  have hA : A = P0 := by
    rcases List.mem_cons.1 hP0mem with h | h
    · exact h.symm
    · have hle0 : P0.2 ≤ A.2 := hgeA P0 h
      simp only [List.mem_cons, List.not_mem_nil, or_false] at hAmem
      rcases hAmem with rfl | rfl | rfl | rfl
      · rfl
      · exfalso
        rw [hP0, hP1] at hle0
        dsimp only at hle0
        linarith
      · exfalso
        rw [hP0, hP2] at hle0
        dsimp only at hle0
        linarith
      · exfalso
        rw [hP0, hP3] at hle0
        dsimp only at hle0
        linarith
  subst hA
  have htl : tl.Perm [P1, P2, P3] := hperm.cons_inv
  obtain ⟨B, tl2, hBeq⟩ : ∃ B tl2, tl = B :: tl2 := by
    rcases tl with _ | ⟨B, tl2⟩
    · have h := htl.length_eq
      simp at h
    · exact ⟨B, tl2, rfl⟩
  subst hBeq
  have hBmem : B ∈ ([P1, P2, P3] : List (ℕ × ℚ)) := htl.subset (List.mem_cons_self B tl2)
  rw [hAeq]
  have hget0 : (P0 :: B :: tl2).getD 0 ((0 : ℕ), (0 : ℚ)) = P0 := rfl
  have hget1 : (P0 :: B :: tl2).getD 1 ((0 : ℕ), (0 : ℚ)) = B := rfl
  rw [hget0, hget1]
  have hcond : B.2 * 1.2 < P0.2 := by
    rw [show (1.2 : ℚ) = 6 / 5 from by norm_num]
    simp only [List.mem_cons, List.not_mem_nil, or_false] at hBmem
    rcases hBmem with rfl | rfl | rfl
    · rw [hP0, hP1]
      dsimp only
      linarith
    · rw [hP0, hP2]
      dsimp only
      linarith
    · rw [hP0, hP3]
      dsimp only
      linarith
  rw [if_pos hcond, hP0]

/-- Witness for C7 at d = 500 ms, L = 20 beats. -/
theorem downbeat_resolver_periodic_selects_zero_witness :
    (100 : ℚ) ≤ 500 ∧ (5 : ℕ) ≤ 20 ∧
      findBestDownbeatOffset (uniformGrid 500 20) (fourPeriodicOnsets 500 20) = 0 :=
  ⟨by norm_num, by norm_num,
    downbeat_resolver_periodic_selects_zero 500 20 (by norm_num) (by norm_num)⟩
